import Mathlib

/-!
Verification development for the vidar editor's highlighting core.

Shallow embedding of:
* the incremental span repositioner (`moveSpan` / `moveLayer` in the
  gosyntax plugin's `Applied` handler),
* the statement walker of the go-syntax highlighter (`addStmt` and
  friends in plugin/gosyntax/syntax/stmt.go),
* the structural outline builder (`parsePkg` in navigator's TOC),
* the outline tree display nodes (`genericTreeNode` / `skippingTreeNode`),
* the single-slot reload gate of the project tree (`update` with its
  capacity-1 `reloadLock` channel).
-/

/- ## Incremental repositioner (gosyntax plugin, moveSpan) -/

/-- Embeds `input.Span`: a half-open text range with `Start`/`End` Go int
fields.  Lean reserves `end`, so the `End` field is spelled `stop`. -/
structure Span where
  start : Int
  stop : Int
  deriving Repr, DecidableEq

/-- Embeds `input.Edit`: field `At` (spelled `atPos`, since Lean reserves `at`) is the edit position; the Go struct
carries rune slices `Old`/`New` of which `moveSpan` only reads the
lengths, so the embedding stores the two lengths directly. -/
structure Edit where
  atPos : Int
  oldLen : Nat
  newLen : Nat
  deriving Repr, DecidableEq

/-- The delta `len(e.New) - len(e.Old)` as computed in `moveSpan`. -/
def Edit.delta (e : Edit) : Int := (e.newLen : Int) - (e.oldLen : Int)

/-- Embeds `Highlight.moveSpan` (part_001 lines 47-69).  The Go loop
mutates `s` over the edit slice; the embedding recurses over the list
carrying the updated span.  Note the `return s` inside the loop: an edit
whose position is beyond the span's current end terminates the whole
loop, it does not merely skip that one edit. -/
def moveSpan (s : Span) : List Edit → Span
  | [] => s
  | e :: rest =>
    if e.atPos > s.stop then s
    else if e.delta = 0 then moveSpan s rest
    else
      let stop1 := s.stop + e.delta
      let stop2 := if stop1 < e.atPos then e.atPos else stop1
      if e.atPos > s.start then moveSpan { s with stop := stop2 } rest
      else
        let start1 := s.start + e.delta
        let start2 := if start1 < e.atPos then e.atPos else start1
        moveSpan { start := start2, stop := stop2 } rest

/-- A syntax layer's span list (the only field `moveLayer` touches). -/
structure SpanLayer where
  spans : List Span
  deriving Repr, DecidableEq

/-- Embeds `Highlight.moveLayer` (part_001 lines 40-45). -/
def moveLayer (l : SpanLayer) (edits : List Edit) : SpanLayer :=
  { l with spans := l.spans.map (fun s => moveSpan s edits) }

/-- Embeds `Highlight.Applied` (part_001 lines 32-38): the `ApplyEdits`
surface of the spec, repositioning every span of every layer. -/
def applyEdits (layers : List SpanLayer) (edits : List Edit) : List SpanLayer :=
  layers.map (fun l => moveLayer l edits)

/-- The repositioning step claim C1 describes, written from the spec's
words: an edit whose position is beyond the span's current end is
skipped and the REMAINING edits are still applied in order.  Kept
side-by-side with `moveSpan` (the code) for comparison. -/
def moveSpanSkipAll (s : Span) : List Edit → Span
  | [] => s
  | e :: rest =>
    if e.atPos > s.stop then moveSpanSkipAll s rest
    else if e.delta = 0 then moveSpanSkipAll s rest
    else
      let stop1 := s.stop + e.delta
      let stop2 := if stop1 < e.atPos then e.atPos else stop1
      if e.atPos > s.start then moveSpanSkipAll { s with stop := stop2 } rest
      else
        let start1 := s.start + e.delta
        let start2 := if start1 < e.atPos then e.atPos else start1
        moveSpanSkipAll { start := start2, stop := stop2 } rest

/- ## Statement walker (plugin/gosyntax/syntax/stmt.go) -/

/-- Highlight categories used by stmt.go: `theme.Keyword`, `theme.Bad`,
and the rainbow brace category parameterized by nesting depth. -/
inductive Category where
  | keyword
  | bad
  | rainbow (depth : Nat)
  deriving Repr, DecidableEq

/-- One recorded highlight span: the arguments of a `s.add(category,
pos, length)` call (category, start offset, length). -/
structure SpanRec where
  cat : Category
  pos : Int
  len : Nat
  deriving Repr, DecidableEq

/-- Walker state: the spans recorded so far, the log lines emitted so
far (`log.Printf` calls), and the rainbow nesting depth. -/
structure WalkState where
  spans : List SpanRec
  logs : List String
  depth : Nat
  deriving Repr, DecidableEq

/-- Modelled from the spec: `Syntax.add` is not among the provided
sources; per the spec, keywords "are recorded as fixed-length spans
anchored at the token's known start offset; length is the literal
keyword length" — so `add` appends one span record. -/
def addSpanRec (st : WalkState) (cat : Category) (pos : Int) (len : Nat) : WalkState :=
  { st with spans := st.spans ++ [⟨cat, pos, len⟩] }

/-- The tokens `go/ast` allows in a `RangeStmt`'s `Tok` field:
`token.ILLEGAL` (a `for range x` form with no assignment), `token.ASSIGN`
(`=`) or `token.DEFINE` (`:=`). -/
inductive RangeTok where
  | illegal
  | assign
  | define
  deriving Repr, DecidableEq

/-- Expressions.  The bodies of the expression walker (`addExpr`,
expr.go) are not among the provided sources, so the embedding keeps
expressions minimal: an identifier with its offset.  `addGoExpr` below
is modelled from the spec. -/
inductive GoExpr where
  | ident (pos : Int) (name : String)
  deriving Repr, DecidableEq

/-- Modelled from the spec: `addExpr` (expr.go, not among the provided
sources) classifies expression tokens; a plain identifier falls in no
category of stmt.go's keyword/bad set, so it records nothing here.
`ast.Expr` fields may be nil, embedded as `Option`. -/
def addGoExpr (st : WalkState) : Option GoExpr → WalkState
  | none => st
  | some (.ident _ _) => st

mutual

/-- The statements of stmt.go's dispatch that the claims touch, plus
`unknown`, standing for any `ast.Stmt` variant that reaches the
`default:` arm of `addStmt`'s type switch.  A `BlockStmt`'s fields
(`Lbrace`, `List`, `Rbrace`) are inlined where go/ast holds a
`*ast.BlockStmt`; a `[]ast.Stmt` field is a `GoStmtList` and a nilable
`ast.Stmt` field is a `GoStmtOpt` (both in this mutual block so the
walker's recursion stays structural). -/
inductive GoStmt where
  | badStmt (pos stop : Int)
  | returnStmt (returnPos : Int) (results : List GoExpr)
  | ifStmt (ifPos : Int) (init : GoStmtOpt) (cond : Option GoExpr)
      (lbrace : Int) (body : GoStmtList) (rbrace : Int) (els : GoStmtOpt)
  | rangeStmt (forPos : Int) (key value : Option GoExpr) (tok : RangeTok)
      (tokPos : Int) (x : GoExpr) (lbrace : Int) (body : GoStmtList) (rbrace : Int)
  | blockStmt (lbrace : Int) (body : GoStmtList) (rbrace : Int)
  | exprStmt (x : GoExpr)
  | unknown (kindName : String)

/-- A `[]ast.Stmt` slice. -/
inductive GoStmtList where
  | nil
  | cons (s : GoStmt) (rest : GoStmtList)

/-- A nilable `ast.Stmt` field. -/
inductive GoStmtOpt where
  | none
  | some (s : GoStmt)

end

/-- Slice append, for stating properties of sibling traversal. -/
def GoStmtList.append : GoStmtList → GoStmtList → GoStmtList
  | .nil, ys => ys
  | .cons x xs, ys => .cons x (xs.append ys)

/-- Embeds `ast.BlockStmt.End()`: one past the closing brace (`Rbrace + 1`),
per go/ast's `End` convention of "position of first character
immediately after the node". -/
def blockEnd (rbrace : Int) : Int := rbrace + 1

/-- The log line of `addStmt`'s `default:` arm
(`log.Printf("Error: Unknown stmt type: %T", stmt)`). -/
def unknownStmtLog (kindName : String) : String :=
  "Error: Unknown stmt type: " ++ kindName

/-- Embeds `Syntax.addBadStmt` (stmt.go lines 67-69):
`s.addNode(theme.Bad, stmt)` records the node's extent as a bad span
(`addNode`, not among the provided sources, is modelled from the spec:
it records the node's range under the given category). -/
def addBadStmt (st : WalkState) (pos stop : Int) : WalkState :=
  addSpanRec st .bad pos (stop - pos).toNat

/-- Embeds `Syntax.addReturnStmt` (stmt.go lines 113-118). -/
def addReturnStmt (st : WalkState) (returnPos : Int) (results : List GoExpr) : WalkState :=
  let st := addSpanRec st .keyword returnPos (String.length "return")
  results.foldl (fun acc r => addGoExpr acc (some r)) st

/-- The state change of entering a block (`rainbowScope`, not among the
provided sources, modelled from the spec): the `{`/`}` pair gets a
depth-derived rainbow category and the depth counter is incremented. -/
def rainbowEnter (st : WalkState) (lb rb : Int) : WalkState :=
  { st with
    spans := st.spans ++ [⟨.rainbow st.depth, lb, 1⟩, ⟨.rainbow st.depth, rb, 1⟩]
    depth := st.depth + 1 }

/-- The deferred closer of `rainbowScope`: restores the depth on every
exit path of the block traversal. -/
def rainbowExit (st : WalkState) : WalkState :=
  { st with depth := st.depth - 1 }

/-- The `rangeStart` computation of `addRangeStmt` (stmt.go lines
124-132), named so theorems can speak about it. -/
def rangeKeywordStart (tok : RangeTok) (forPos tokPos : Int) : Int :=
  match tok with
  | .illegal => forPos + (String.length "for " : Int)
  | .assign => tokPos + (String.length "= " : Int)
  | .define => tokPos + (String.length ":= " : Int)

mutual

/-- Embeds `Syntax.addStmt` (stmt.go lines 15-65) restricted to the
constructors of `GoStmt`; every arm follows its source case (the helper
bodies of `addIfStmt`, `addRangeStmt` and `addBlockStmt` are inlined
here so the recursion is structural; the named wrappers below restate
them).  The `unknown` arm is the `default:` of the type switch: it only
logs. -/
def addStmt (st : WalkState) : GoStmt → WalkState
  | .badStmt p q => addBadStmt st p q
  | .returnStmt rp res => addReturnStmt st rp res
  | .ifStmt ip init cond lb body rb els =>
      -- addIfStmt, stmt.go lines 138-147
      let st1 := addSpanRec st .keyword ip (String.length "if")
      let st2 := addStmtOpt st1 init
      let st3 := addGoExpr st2 cond
      let st4 := rainbowExit (addStmtList (rainbowEnter st3 lb rb) body)
      let st5 := match els with
        | .none => st4
        | .some _ => addSpanRec st4 .keyword (blockEnd rb + 1) (String.length "else")
      addStmtOpt st5 els
  | .rangeStmt fp key value tok tokPos x lb body rb =>
      -- addRangeStmt, stmt.go lines 120-136
      let st1 := addSpanRec st .keyword fp (String.length "for")
      let st2 := addGoExpr st1 key
      let st3 := addGoExpr st2 value
      let st4 := addSpanRec st3 .keyword (rangeKeywordStart tok fp tokPos)
        (String.length "range")
      let st5 := addGoExpr st4 (some x)
      rainbowExit (addStmtList (rainbowEnter st5 lb rb) body)
  | .blockStmt lb body rb =>
      -- addBlockStmt, stmt.go lines 191-196
      rainbowExit (addStmtList (rainbowEnter st lb rb) body)
  | .exprStmt x => addGoExpr st (some x)
  | .unknown kindName => { st with logs := st.logs ++ [unknownStmtLog kindName] }

/-- Embeds the nil check of `addStmt` for a nilable statement field (`if stmt == nil { return }`,
stmt.go lines 16-18). -/
def addStmtOpt (st : WalkState) : GoStmtOpt → WalkState
  | .none => st
  | .some s => addStmt st s

/-- The statement loop of `addBlockStmt` and clause bodies: statements
are walked in order, each starting from the state the previous one
left. -/
def addStmtList (st : WalkState) : GoStmtList → WalkState
  | .nil => st
  | .cons s rest => addStmtList (addStmt st s) rest

end

/-- Embeds `Syntax.addBlockStmt` (stmt.go lines 191-196): the rainbow
scope around the in-order traversal of the block's statement list. -/
def addBlockStmt (st : WalkState) (lb : Int) (body : GoStmtList) (rb : Int) : WalkState :=
  rainbowExit (addStmtList (rainbowEnter st lb rb) body)

/-- Embeds `Syntax.addIfStmt` (stmt.go lines 138-147), as dispatched by
`addStmt`. -/
def addIfStmt (st : WalkState) (ifPos : Int) (init : GoStmtOpt) (cond : Option GoExpr)
    (lb : Int) (body : GoStmtList) (rb : Int) (els : GoStmtOpt) : WalkState :=
  addStmt st (.ifStmt ifPos init cond lb body rb els)

/-- Embeds `Syntax.addRangeStmt` (stmt.go lines 120-136), as dispatched
by `addStmt`. -/
def addRangeStmt (st : WalkState) (forPos : Int) (key value : Option GoExpr)
    (tok : RangeTok) (tokPos : Int) (x : GoExpr) (lb : Int) (body : GoStmtList)
    (rb : Int) : WalkState :=
  addStmt st (.rangeStmt forPos key value tok tokPos x lb body rb)

/- ## Outline tree nodes (part_004, navigator: genericTreeNode / skippingTreeNode) -/

/-- The three colors of part_004's navigator (`genericColor`,
`nameColor`, `skippableColor`); their RGBA values play no role here. -/
inductive NodeColor where
  | generic
  | name
  | skippable
  deriving Repr, DecidableEq

/-- A display tree node: `generic` embeds `genericTreeNode` (fields
`name`, `path`, `color`, `children`), `skipping` embeds
`skippingTreeNode` (same data, embedded `genericTreeNode`); children
are `gxui.TreeNode` values, here further `TNode`s. -/
inductive TNode where
  | generic (name path : String) (color : NodeColor) (children : List TNode)
  | skipping (name path : String) (color : NodeColor) (children : List TNode)

/-- The stored `children` field, common to both node kinds: the
underlying parent-child data, untouched by the display accessors. -/
def TNode.storedChildren : TNode → List TNode
  | .generic _ _ _ cs => cs
  | .skipping _ _ _ cs => cs

/-- Embeds `Count`: `genericTreeNode.Count` (part_004 lines 193-195)
returns `len(t.children)`; `skippingTreeNode.Count` (lines 239-244)
forwards to the single child when there is exactly one. -/
def TNode.count : TNode → Nat
  | .generic _ _ _ cs => cs.length
  | .skipping _ _ _ cs =>
    match cs with
    | [c] => c.count
    | _ => cs.length

/-- Embeds `Item`: `genericTreeNode.Item` (lines 215-217) returns
`t.path`; `skippingTreeNode.Item` (lines 253-258) forwards to the
single child when there is exactly one. -/
def TNode.item : TNode → String
  | .generic _ p _ _ => p
  | .skipping _ p _ cs =>
    match cs with
    | [c] => c.item
    | _ => p

/-- Embeds `NodeAt`: `genericTreeNode.NodeAt` (lines 219-221) indexes
`t.children` (a Go panic on an out-of-range index is `none` here);
`skippingTreeNode.NodeAt` (lines 260-265) forwards to the single child
when there is exactly one. -/
def TNode.nodeAt : TNode → Nat → Option TNode
  | .generic _ _ _ cs, i => cs.get? i
  | .skipping _ _ _ cs, i =>
    match cs with
    | [c] => c.nodeAt i
    | _ => cs.get? i

/-- The loop body of `genericTreeNode.ItemIndex` (lines 197-206): the
first child whose display item equals `path` or is a dotted ancestor of
it; `-1` when none matches. -/
def itemIndexFrom (path : String) : List TNode → Nat → Int
  | [], _ => -1
  | c :: rest, i =>
    let childPath := c.item
    if path = childPath ∨ String.isPrefixOf (childPath ++ ".") path then (i : Int)
    else itemIndexFrom path rest (i + 1)

/-- Embeds `ItemIndex`: generic nodes scan their children;
`skippingTreeNode.ItemIndex` (lines 246-251) forwards to the single
child when there is exactly one. -/
def TNode.itemIndex (t : TNode) (path : String) : Int :=
  match t with
  | .generic _ _ _ cs => itemIndexFrom path cs 0
  | .skipping _ _ _ cs =>
    match cs with
    | [c] => c.itemIndex path
    | _ => itemIndexFrom path cs 0

/-- The display rule exactly as the spec words it, for comparison with
the code's accessors: "any node in the display tree with exactly one
child visually collapses into that single child (recursively)". -/
def collapseEverySingleChild : TNode → TNode
  | .generic _ _ _ [c] => collapseEverySingleChild c
  | .skipping _ _ _ [c] => collapseEverySingleChild c
  | t => t

/- ## Structural outline builder (part_004, navigator: TOC.parsePkg) -/

/-- A `Name` used as a leaf (consts, vars, funcs, methods): embedded
`genericTreeNode` fields plus the `Location` (filename, int position).
Leaves built by `parsePkg` always get `nameColor` and no children. -/
structure OutlineLeaf where
  name : String
  path : String
  filename : String
  pos : Nat
  deriving Repr, DecidableEq

/-- The `*Name` held in `parsePkg`'s `typeMap`: same data as a leaf
plus the method children appended through the shared pointer.  The Go
zero value `&Name{}` (the placeholder) is `default`. -/
structure TypeEntry where
  name : String := ""
  path : String := ""
  filename : String := ""
  pos : Nat := 0
  children : List OutlineLeaf := []
  deriving Repr, DecidableEq, Inhabited

/-- Embeds `ast.Spec`: a `TypeSpec` (name and position) or a `ValueSpec`
(a list of names, each with its position).  Other spec kinds
(`ImportSpec`) never reach the three `GenDecl` arms used here. -/
inductive GoSpec where
  | typeSpec (name : String) (pos : Nat)
  | valueSpec (names : List (String × Nat))
  deriving Repr, DecidableEq

/-- A top-level declaration as `parsePkg` consumes it: `ast.GenDecl`
with its token string and specs, or `ast.FuncDecl` with its name,
position and optional receiver.  The receiver field holds whether the
receiver type was an `*ast.StarExpr` and the base identifier's name
(lines 368-372 dereference the star before the name lookup). -/
inductive GoDecl where
  | genDecl (tok : String) (specs : List GoSpec)
  | funcDecl (name : String) (pos : Nat) (recv : Option (Bool × String))
  deriving Repr, DecidableEq

/-- Association-list read of Go's `typeMap[typeName]`. -/
def lookupEntry : List (String × TypeEntry) → String → Option TypeEntry
  | [], _ => none
  | (k, v) :: rest, key => if key = k then some v else lookupEntry rest key

/-- Association-list write of Go's `typeMap[typeName] = typ`: replaces
the entry when the key is present, otherwise appends it. -/
def storeEntry : List (String × TypeEntry) → String → TypeEntry → List (String × TypeEntry)
  | [], key, v => [(key, v)]
  | (k, w) :: rest, key, v =>
    if key = k then (k, v) :: rest else (k, w) :: storeEntry rest key v

/-- The mutable locals of `parsePkg`'s scan loop (lines 320-328):
`consts`, `vars`, `funcs` collect leaves; `typeMap` is the scratch
mapping from type name to its shared node; `typesOrder` records, in
encounter order, the keys appended to the `types` slice — the Go slice
holds pointers into `typeMap`, so the final tree reads the map. -/
structure PkgScan where
  consts : List OutlineLeaf := []
  vars : List OutlineLeaf := []
  funcs : List OutlineLeaf := []
  typeMap : List (String × TypeEntry) := []
  typesOrder : List String := []
  deriving Repr, DecidableEq, Inhabited

/-- Embeds `valueNamesFrom` (part_004 lines 392-409): one leaf per
name of each `ValueSpec`, keyed `parentName.<name>`; non-value specs
are skipped. -/
def valueNamesFrom (filename parentName : String) (specs : List GoSpec) : List OutlineLeaf :=
  specs.foldl
    (fun acc sp =>
      match sp with
      | .valueSpec names =>
          acc ++ names.map (fun n => ⟨n.1, parentName ++ "." ++ n.1, filename, n.2⟩)
      | .typeSpec _ _ => acc)
    []

/-- The head `TypeSpec` of a type `GenDecl`'s specs, as read by
`src.Specs[0].(*ast.TypeSpec)` (line 340): only the first spec is ever
consulted.  `none` covers the shapes on which the Go code would panic
(no specs, or a non-type head), which `go/parser` never produces for a
`type` declaration. -/
def typeSpecHead : List GoSpec → Option (String × Nat)
  | .typeSpec n p :: _ => some (n, p)
  | _ => none

/-- Embeds the body of `parsePkg`'s declaration switch (part_004 lines
330-381) for one declaration of file `filename`. -/
def scanDecl (pkgName filename : String) (st : PkgScan) : GoDecl → PkgScan
  | .genDecl tok specs =>
    if tok = "const" then
      { st with consts := st.consts ++ valueNamesFrom filename (pkgName ++ ".constants") specs }
    else if tok = "var" then
      { st with vars := st.vars ++ valueNamesFrom filename (pkgName ++ ".global vars") specs }
    else if tok = "type" then
      match typeSpecHead specs with
      | none => st
      | some (typeName, pos) =>
        -- lines 345-349: reuse the placeholder when a method already
        -- created the entry, otherwise insert a fresh zero value
        let typ := (lookupEntry st.typeMap typeName).getD {}
        -- lines 350-354: fill in the node through the shared pointer
        let typ := { typ with
          name := typeName
          path := pkgName ++ ".types." ++ typeName
          filename := filename
          pos := pos }
        { st with
          typeMap := storeEntry st.typeMap typeName typ
          typesOrder := st.typesOrder ++ [typeName] }
    else st
  | .funcDecl fname pos recv =>
    -- lines 358-363
    let base : OutlineLeaf :=
      ⟨fname, pkgName ++ ".funcs." ++ fname, filename, pos⟩
    match recv with
    | none => { st with funcs := st.funcs ++ [base] }
    | some r =>
      -- lines 368-379; r.1 (the star) is stripped, r.2 is the base name
      let recvTypeName := r.2
      let typ := (lookupEntry st.typeMap recvTypeName).getD {}
      let leaf := { base with path := pkgName ++ ".types." ++ recvTypeName ++ "." ++ fname }
      let typ := { typ with children := typ.children ++ [leaf] }
      { st with typeMap := storeEntry st.typeMap recvTypeName typ }

/-- The scan loop over `pkg.Files` (line 329): Go map iteration order
is unspecified, so the file list's order is a parameter. -/
def scanFiles (pkgName : String) (files : List (String × List GoDecl)) : PkgScan :=
  files.foldl (fun st f => f.2.foldl (scanDecl pkgName f.1) st) {}

/-- A leaf rendered as its tree node (a `Name` embeds
`genericTreeNode`; leaves have `nameColor` and no children). -/
def leafNode (l : OutlineLeaf) : TNode :=
  .generic l.name l.path .name []

/-- A type entry rendered as its tree node: the shared `*Name` with its
accumulated method children. -/
def typeNode (t : TypeEntry) : TNode :=
  .generic t.name t.path .name (t.children.map leafNode)

/-- Embeds `parsePkg` (part_004 lines 319-390): scan all files, then
assemble the package node with its four fixed groups in order —
constants, global vars, types, funcs.  The `types` slice held pointers,
so its nodes are read back from the final map. -/
def parsePkg (pkgName : String) (files : List (String × List GoDecl)) : TNode :=
  let st := scanFiles pkgName files
  .generic pkgName pkgName .skippable
    [ .generic "constants" (pkgName ++ ".constants") .generic (st.consts.map leafNode)
    , .generic "global vars" (pkgName ++ ".global vars") .generic (st.vars.map leafNode)
    , .generic "types" (pkgName ++ ".types") .generic
        (st.typesOrder.map (fun k => typeNode ((lookupEntry st.typeMap k).getD {})))
    , .generic "funcs" (pkgName ++ ".funcs") .generic (st.funcs.map leafNode) ]

/- ## Project tree reload gate (navigator/project_tree.go, update) -/

/-- State of the reload path: `held` is the occupancy of the capacity-1
`reloadLock` channel (`make(chan struct{}, 1)`, NewProjectTree line
91); `inFlight` counts `update` bodies currently executing past the
gate. -/
structure GateState where
  held : Bool
  inFlight : Nat
  deriving Repr, DecidableEq

/-- The transitions of `ProjectTree.update` (lines 222-239).
`acquire`: a request finds the channel empty, the non-blocking send of
the `select` succeeds and the body starts.  `drop`: a request finds the
channel full, the `default:` arm returns immediately — the state is
unchanged, nothing is queued.  `complete`: an executing body finishes
and its deferred receive empties the channel. -/
inductive GateStep : GateState → GateState → Prop where
  | acquire (n : Nat) : GateStep ⟨false, n⟩ ⟨true, n + 1⟩
  | drop (n : Nat) : GateStep ⟨true, n⟩ ⟨true, n⟩
  | complete (n : Nat) : GateStep ⟨true, n + 1⟩ ⟨false, n⟩

/-- Initial state: channel empty, no update running. -/
def gateInit : GateState := ⟨false, 0⟩

/-- States reachable from `gateInit` by `GateStep`. -/
inductive GateReachable : GateState → Prop where
  | init : GateReachable gateInit
  | step {s t : GateState} : GateReachable s → GateStep s t → GateReachable t

/-- The tree `parsePkg` must produce for the C4 scenario (one type
`Foo`, one method `Bar` on `*Foo`): one `Foo` node under `types` with
one child `Bar`. -/
def fooBarExpectedTree : TNode :=
  .generic "pkg" "pkg" .skippable
    [ .generic "constants" "pkg.constants" .generic []
    , .generic "global vars" "pkg.global vars" .generic []
    , .generic "types" "pkg.types" .generic
        [.generic "Foo" "pkg.types.Foo" .name [.generic "Bar" "pkg.types.Foo.Bar" .name []]]
    , .generic "funcs" "pkg.funcs" .generic [] ]

/- ## Theorems -/

/- ## Helper lemmas -/

/-- The `addExpr` step on the embedded expression forms leaves the state
unchanged. -/
theorem addGoExpr_eq (st : WalkState) (o : Option GoExpr) : addGoExpr st o = st := by
  cases o with
  | none => rfl
  | some e => cases e with | ident _ _ => rfl

/-- Folding `addExpr` over a result list leaves the state unchanged. -/
theorem foldl_addGoExpr (res : List GoExpr) (st : WalkState) :
    res.foldl (fun acc r => addGoExpr acc (some r)) st = st := by
  induction res generalizing st with
  | nil => rfl
  | cons r rest ih => simp [List.foldl, addGoExpr_eq, ih]

/-- Span lists only grow: transitivity of the suffix-extension shape. -/
theorem spansExt_trans {a b c : WalkState} (h1 : ∃ t, b.spans = a.spans ++ t)
    (h2 : ∃ t, c.spans = b.spans ++ t) : ∃ t, c.spans = a.spans ++ t := by
  obtain ⟨t1, e1⟩ := h1; obtain ⟨t2, e2⟩ := h2
  exact ⟨t1 ++ t2, by rw [e2, e1, List.append_assoc]⟩

theorem spansExt_addSpanRec (st : WalkState) (c : Category) (p : Int) (l : Nat) :
    ∃ t, (addSpanRec st c p l).spans = st.spans ++ t := ⟨_, rfl⟩

theorem spansExt_rainbowEnter (st : WalkState) (lb rb : Int) :
    ∃ t, (rainbowEnter st lb rb).spans = st.spans ++ t := ⟨_, rfl⟩

theorem rainbowExit_spans (st : WalkState) : (rainbowExit st).spans = st.spans := rfl

mutual

/-- The walker only appends to the span list (statement case). -/
theorem addStmt_spans_extend (st : WalkState) (s : GoStmt) :
    ∃ t, (addStmt st s).spans = st.spans ++ t := by
  cases s with
  | badStmt p q => exact ⟨_, rfl⟩
  | returnStmt rp res =>
    simp only [addStmt, addReturnStmt, foldl_addGoExpr]
    exact ⟨_, rfl⟩
  | ifStmt ip init cond lb body rb els =>
    simp only [addStmt, addGoExpr_eq]
    have h1 := spansExt_addSpanRec st .keyword ip (String.length "if")
    have h2 := spansExt_trans h1 (addStmtOpt_spans_extend _ init)
    have h3 := spansExt_trans h2 (spansExt_rainbowEnter _ lb rb)
    have h4 := spansExt_trans h3 (addStmtList_spans_extend _ body)
    cases els with
    | none => exact h4
    | some e =>
      have h5 := spansExt_trans h4
        (spansExt_addSpanRec _ .keyword (blockEnd rb + 1) (String.length "else"))
      exact spansExt_trans h5 (addStmt_spans_extend _ e)
  | rangeStmt fp key value tok tokPos x lb body rb =>
    simp only [addStmt, addGoExpr_eq]
    have h1 := spansExt_addSpanRec st .keyword fp (String.length "for")
    have h2 := spansExt_trans h1 (spansExt_addSpanRec _ .keyword
      (rangeKeywordStart tok fp tokPos) (String.length "range"))
    have h3 := spansExt_trans h2 (spansExt_rainbowEnter _ lb rb)
    exact spansExt_trans h3 (addStmtList_spans_extend _ body)
  | blockStmt lb body rb =>
    have h1 := spansExt_rainbowEnter st lb rb
    exact spansExt_trans h1 (addStmtList_spans_extend _ body)
  | exprStmt x => exact ⟨[], by simp [addStmt, addGoExpr_eq]⟩
  | unknown k => exact ⟨[], by simp [addStmt]⟩

/-- The walker only appends to the span list (nilable case). -/
theorem addStmtOpt_spans_extend (st : WalkState) (o : GoStmtOpt) :
    ∃ t, (addStmtOpt st o).spans = st.spans ++ t := by
  cases o with
  | none => exact ⟨[], by simp [addStmtOpt]⟩
  | some s => exact addStmt_spans_extend st s

/-- The walker only appends to the span list (list case). -/
theorem addStmtList_spans_extend (st : WalkState) (l : GoStmtList) :
    ∃ t, (addStmtList st l).spans = st.spans ++ t := by
  cases l with
  | nil => exact ⟨[], by simp [addStmtList]⟩
  | cons s rest =>
    exact spansExt_trans (addStmt_spans_extend st s) (addStmtList_spans_extend _ rest)

end

/-- A span already recorded survives any further statement walk. -/
theorem mem_addStmt_spans {a : SpanRec} {st : WalkState} (s : GoStmt)
    (h : a ∈ st.spans) : a ∈ (addStmt st s).spans := by
  obtain ⟨t, ht⟩ := addStmt_spans_extend st s
  rw [ht]; exact List.mem_append_left _ h

/-- A span already recorded survives any further list walk. -/
theorem mem_addStmtList_spans {a : SpanRec} {st : WalkState} (l : GoStmtList)
    (h : a ∈ st.spans) : a ∈ (addStmtList st l).spans := by
  obtain ⟨t, ht⟩ := addStmtList_spans_extend st l
  rw [ht]; exact List.mem_append_left _ h

/-- Walking a concatenation of sibling statements walks the first part,
then the second, in order. -/
theorem addStmtList_append (st : WalkState) (xs ys : GoStmtList) :
    addStmtList st (xs.append ys) = addStmtList (addStmtList st xs) ys := by
  cases xs with
  | nil => rfl
  | cons s rest => exact addStmtList_append (addStmt st s) rest ys

/-- One repositioning step preserves span validity. -/
theorem moveSpan_valid (s : Span) (edits : List Edit)
    (hpos : ∀ e ∈ edits, 0 ≤ e.atPos) (h0 : 0 ≤ s.start) (h1 : s.start ≤ s.stop) :
    0 ≤ (moveSpan s edits).start ∧ (moveSpan s edits).start ≤ (moveSpan s edits).stop := by
  induction edits generalizing s with
  | nil => exact ⟨h0, h1⟩
  | cons e rest ih =>
    have hat : (0 : Int) ≤ e.atPos := hpos e (List.mem_cons_self e rest)
    have hrest : ∀ e' ∈ rest, (0 : Int) ≤ e'.atPos :=
      fun e' he' => hpos e' (List.mem_cons_of_mem _ he')
    simp only [moveSpan]
    split_ifs with hgt hd hcE hstart hcS hstart hcS
    · exact ⟨h0, h1⟩
    · exact ih s hrest h0 h1
    all_goals refine ih _ hrest ?_ ?_ <;> simp <;> omega

/- ## Claims -/

/-- C1 counterexample: for the span [0, 5) and the batch
[insert 1 at 10, insert 2 at 0], the code's `moveSpan` returns the span
unchanged — the first edit's position is beyond the span's end and the
loop returns at once — while the claim's skip-and-continue rule
(`moveSpanSkipAll`) would still apply the second edit and yield [2, 7).
The remaining edits are NOT applied. -/
theorem moveSpanEarlyReturnDiffersFromSkip :
    moveSpan ⟨0, 5⟩ [⟨10, 0, 1⟩, ⟨0, 0, 2⟩] = ⟨0, 5⟩ ∧
    moveSpanSkipAll ⟨0, 5⟩ [⟨10, 0, 1⟩, ⟨0, 0, 2⟩] = ⟨2, 7⟩ ∧
    moveSpan ⟨0, 5⟩ [⟨10, 0, 1⟩, ⟨0, 0, 2⟩] ≠
      moveSpanSkipAll ⟨0, 5⟩ [⟨10, 0, 1⟩, ⟨0, 0, 2⟩] := by
  refine ⟨rfl, rfl, ?_⟩; decide

/-- C1 (amended): edits of a batch are applied to a span in caller
order, but an edit whose position is beyond the span's current end ends
the processing of that span: the span is returned unaffected by that
edit AND by all remaining edits of the batch (rather than the remaining
edits still being applied). -/
theorem moveSpanEditBeyondEndStopsProcessing (s : Span) (e : Edit) (rest : List Edit) :
    (e.atPos > s.stop → moveSpan s (e :: rest) = s) ∧
    (e.atPos ≤ s.stop → moveSpan s (e :: rest) = moveSpan (moveSpan s [e]) rest) := by
  constructor
  · intro h
    simp only [moveSpan]
    rw [if_pos h]
  · intro h
    have h' : ¬ e.atPos > s.stop := not_lt.mpr h
    by_cases hd : e.delta = 0
    · simp only [moveSpan, if_neg h', if_pos hd]
    · simp only [moveSpan, if_neg h', if_neg hd]
      split_ifs <;> rfl

/-- Witness for C1's amended theorem at concrete inputs. -/
theorem moveSpanEditBeyondEndStopsProcessing_witness :
    moveSpan ⟨0, 5⟩ [⟨10, 0, 1⟩] = ⟨0, 5⟩ ∧
    moveSpan ⟨0, 5⟩ [⟨1, 0, 2⟩, ⟨4, 1, 1⟩] =
      moveSpan (moveSpan ⟨0, 5⟩ [⟨1, 0, 2⟩]) [⟨4, 1, 1⟩] :=
  ⟨(moveSpanEditBeyondEndStopsProcessing ⟨0, 5⟩ ⟨10, 0, 1⟩ []).1 (by decide),
   (moveSpanEditBeyondEndStopsProcessing ⟨0, 5⟩ ⟨1, 0, 2⟩ [⟨4, 1, 1⟩]).2 (by decide)⟩

/-- C2: repositioning is total (a function, no error path) and
preserves validity: for layers of valid spans and a batch of edits at
non-negative positions, every span produced by `applyEdits` still
satisfies 0 ≤ start ≤ end. -/
theorem applyEditsPreservesValidity (layers : List SpanLayer) (edits : List Edit)
    (hpos : ∀ e ∈ edits, 0 ≤ e.atPos)
    (hval : ∀ l ∈ layers, ∀ sp ∈ l.spans, 0 ≤ sp.start ∧ sp.start ≤ sp.stop) :
    ∀ l' ∈ applyEdits layers edits, ∀ sp ∈ l'.spans,
      0 ≤ sp.start ∧ sp.start ≤ sp.stop := by
  intro l' hl' sp hsp
  simp only [applyEdits, List.mem_map] at hl'
  obtain ⟨l, hl, rfl⟩ := hl'
  simp only [moveLayer, List.mem_map] at hsp
  obtain ⟨s0, hs0, rfl⟩ := hsp
  obtain ⟨v0, v1⟩ := hval l hl s0 hs0
  exact moveSpan_valid s0 edits hpos v0 v1

/-- Witness for C2 at a concrete layer and edit batch. -/
theorem applyEditsPreservesValidity_witness :
    0 ≤ (moveSpan ⟨1, 4⟩ [⟨0, 2, 5⟩]).start ∧
      (moveSpan ⟨1, 4⟩ [⟨0, 2, 5⟩]).start ≤ (moveSpan ⟨1, 4⟩ [⟨0, 2, 5⟩]).stop :=
  applyEditsPreservesValidity [⟨[⟨1, 4⟩]⟩] [⟨0, 2, 5⟩] (by decide) (by decide)
    (moveLayer ⟨[⟨1, 4⟩]⟩ [⟨0, 2, 5⟩]) (by simp [applyEdits])
    (moveSpan ⟨1, 4⟩ [⟨0, 2, 5⟩]) (by simp [moveLayer])

/-- C3: a single insertion of length L strictly before a valid span
shifts both its start and its end by exactly L, preserving its
length. -/
theorem insertionBeforeSpanShiftsBothEnds (s : Span) (P : Int) (L : Nat)
    (h1 : s.start ≤ s.stop) (hP : P < s.start) :
    moveSpan s [⟨P, 0, L⟩] = ⟨s.start + L, s.stop + L⟩ := by
  obtain ⟨a, b⟩ := s
  simp only at h1 hP
  simp only [moveSpan, Edit.delta]
  split_ifs <;> simp_all [moveSpan, Span.mk.injEq] <;> omega

/-- Witness for C3 at a concrete span and insertion. -/
theorem insertionBeforeSpanShiftsBothEnds_witness :
    moveSpan ⟨2, 6⟩ [⟨1, 0, 3⟩] = ⟨5, 9⟩ :=
  insertionBeforeSpanShiftsBothEnds ⟨2, 6⟩ 1 3 (by decide) (by decide)

/-- C4: outline construction is insensitive to declaration encounter
order.  For `type Foo struct{}` and `func (f *Foo) Bar() {}`, all four
arrangements — one file in either declaration order, two files in
either file order — produce exactly one `Foo` node under the `types`
group with exactly one child `Bar`: a method seen first leaves a
placeholder in the scratch mapping that the later type declaration
fills in rather than duplicating. -/
theorem outlineOrderInsensitiveFooBar :
    parsePkg "pkg" [("a.go", [.genDecl "type" [.typeSpec "Foo" 10],
        .funcDecl "Bar" 30 (some (true, "Foo"))])] = fooBarExpectedTree ∧
    parsePkg "pkg" [("a.go", [.funcDecl "Bar" 30 (some (true, "Foo")),
        .genDecl "type" [.typeSpec "Foo" 10]])] = fooBarExpectedTree ∧
    parsePkg "pkg" [("a.go", [.genDecl "type" [.typeSpec "Foo" 10]]),
        ("b.go", [.funcDecl "Bar" 30 (some (true, "Foo"))])] = fooBarExpectedTree ∧
    parsePkg "pkg" [("b.go", [.funcDecl "Bar" 30 (some (true, "Foo"))]),
        ("a.go", [.genDecl "type" [.typeSpec "Foo" 10]])] = fooBarExpectedTree := by
  refine ⟨?_, ?_, ?_, ?_⟩ <;> rfl

/-- C5 counterexample: the claim's display rule ("every node with
exactly one child collapses into that single child, recursively",
modelled by `collapseEverySingleChild`) disagrees with the code's
display accessors on a node the builder actually produces: the `Foo`
type node with single child `Bar` is a `genericTreeNode`, so its
display item stays `pkg.types.Foo` and its display count stays 1,
whereas the claimed rule would show `Bar` (item `pkg.types.Foo.Bar`,
count 0). -/
theorem genericSingleChildNodeDoesNotCollapse :
    (TNode.nodeAt (parsePkg "pkg" [("a.go", [.genDecl "type" [.typeSpec "Foo" 10],
          .funcDecl "Bar" 30 (some (true, "Foo"))])]) 2).bind (fun g => TNode.nodeAt g 0) =
      some (.generic "Foo" "pkg.types.Foo" .name
        [.generic "Bar" "pkg.types.Foo.Bar" .name []]) ∧
    TNode.count (.generic "Foo" "pkg.types.Foo" .name
        [.generic "Bar" "pkg.types.Foo.Bar" .name []]) = 1 ∧
    TNode.count (collapseEverySingleChild (.generic "Foo" "pkg.types.Foo" .name
        [.generic "Bar" "pkg.types.Foo.Bar" .name []])) = 0 ∧
    TNode.item (.generic "Foo" "pkg.types.Foo" .name
        [.generic "Bar" "pkg.types.Foo.Bar" .name []]) = "pkg.types.Foo" ∧
    TNode.item (collapseEverySingleChild (.generic "Foo" "pkg.types.Foo" .name
        [.generic "Bar" "pkg.types.Foo.Bar" .name []])) = "pkg.types.Foo.Bar" ∧
    TNode.item (.generic "Foo" "pkg.types.Foo" .name
        [.generic "Bar" "pkg.types.Foo.Bar" .name []]) ≠
      TNode.item (collapseEverySingleChild (.generic "Foo" "pkg.types.Foo" .name
        [.generic "Bar" "pkg.types.Foo.Bar" .name []])) := by
  refine ⟨rfl, rfl, rfl, rfl, rfl, ?_⟩
  decide

/-- C5 (amended): only `skippingTreeNode`-backed nodes collapse into a
single child — and do so on every display accessor, recursively through
the forwarded call — while `genericTreeNode`-backed nodes (the four
fixed group nodes and every node `parsePkg` builds) expose exactly
their own data; in both cases the stored children used for lookup are
unaltered. -/
theorem skippingNodeCollapseDisplayOnly (n p q : String) (c : NodeColor) (ch : TNode)
    (gn gp : String) (gc : NodeColor) (gcs : List TNode) (i : Nat) :
    TNode.count (.skipping n p c [ch]) = TNode.count ch ∧
    TNode.item (.skipping n p c [ch]) = TNode.item ch ∧
    TNode.nodeAt (.skipping n p c [ch]) i = TNode.nodeAt ch i ∧
    TNode.itemIndex (.skipping n p c [ch]) q = TNode.itemIndex ch q ∧
    TNode.storedChildren (.skipping n p c [ch]) = [ch] ∧
    TNode.count (.generic gn gp gc gcs) = gcs.length ∧
    TNode.item (.generic gn gp gc gcs) = gp ∧
    TNode.nodeAt (.generic gn gp gc gcs) i = gcs.get? i ∧
    TNode.storedChildren (.generic gn gp gc gcs) = gcs :=
  ⟨rfl, rfl, rfl, rfl, rfl, rfl, rfl, rfl, rfl⟩

/-- C6: for every range statement the `range` keyword span is recorded
at `rangeKeywordStart`, which is computed by exactly three cases on the
assignment operator — no operator: `For + len("for ")`; `=`:
`TokPos + len("= ")`; `:=`: `TokPos + len(":= ")` — and always with
length `len("range")`. -/
theorem rangeKeywordThreeCases (st : WalkState) (forPos : Int) (key value : Option GoExpr)
    (tok : RangeTok) (tokPos : Int) (x : GoExpr) (lb : Int) (body : GoStmtList) (rb : Int) :
    (⟨.keyword, rangeKeywordStart tok forPos tokPos, String.length "range"⟩ : SpanRec) ∈
        (addRangeStmt st forPos key value tok tokPos x lb body rb).spans ∧
      rangeKeywordStart .illegal forPos tokPos = forPos + (String.length "for " : Int) ∧
      rangeKeywordStart .assign forPos tokPos = tokPos + (String.length "= " : Int) ∧
      rangeKeywordStart .define forPos tokPos = tokPos + (String.length ":= " : Int) := by
  refine ⟨?_, rfl, rfl, rfl⟩
  simp only [addRangeStmt, addStmt, addGoExpr_eq, rainbowExit_spans]
  apply mem_addStmtList_spans
  simp [rainbowEnter, addSpanRec]

/-- C7: a statement of unrecognized kind is recovered locally: the
`default:` arm adds no span, appends one log line, and returns, so the
sibling statements before and after it are still walked in order; an
`ast.BadStmt` (the parser's marker for malformed syntax) is classified
as a `bad` span. -/
theorem unknownStmtRecoveryContinuesSiblings (st : WalkState) (kindName : String)
    (pre post : GoStmtList) (pos stop : Int) :
    (addStmt st (.unknown kindName)).spans = st.spans ∧
    (addStmt st (.unknown kindName)).logs = st.logs ++ [unknownStmtLog kindName] ∧
    addStmtList st (pre.append (.cons (.unknown kindName) post)) =
      addStmtList (addStmt (addStmtList st pre) (.unknown kindName)) post ∧
    (addStmt st (.badStmt pos stop)).spans =
      st.spans ++ [⟨.bad, pos, (stop - pos).toNat⟩] := by
  refine ⟨rfl, rfl, ?_, rfl⟩
  rw [addStmtList_append]
  rfl

/-- C8: in every state reachable by the reload gate's step relation, at
most one reload is in flight: the capacity-1 channel is acquired
non-blockingly, a request arriving while it is held is dropped with the
state unchanged, and completion releases it. -/
theorem reloadGateAtMostOneInFlight (s : GateState) (h : GateReachable s) :
    s.inFlight ≤ 1 := by
  have key : ∀ t, GateReachable t → t.inFlight = if t.held then 1 else 0 := by
    intro t ht
    induction ht with
    | init => rfl
    | step _ hstep ih => cases hstep <;> simp_all
  rw [key s h]
  split <;> omega

/-- Witness for C8 at the state reached by one acquisition. -/
theorem reloadGateAtMostOneInFlight_witness :
    GateReachable ⟨true, 1⟩ ∧ (⟨true, 1⟩ : GateState).inFlight ≤ 1 :=
  ⟨GateReachable.step GateReachable.init (GateStep.acquire 0),
   reloadGateAtMostOneInFlight ⟨true, 1⟩
     (GateReachable.step GateReachable.init (GateStep.acquire 0))⟩

/-- C9: a grouped type declaration is read only through its first spec:
the outline is the same as if the declaration held only that spec, and
the resulting `types` group holds exactly the first name's node — the
remaining specs contribute nothing. -/
theorem groupedTypeDeclReadsFirstSpecOnly (pkgName fn n1 : String) (p1 : Nat)
    (rest : List GoSpec) :
    parsePkg pkgName [(fn, [.genDecl "type" (.typeSpec n1 p1 :: rest)])] =
      parsePkg pkgName [(fn, [.genDecl "type" [.typeSpec n1 p1]])] ∧
    parsePkg pkgName [(fn, [.genDecl "type" (.typeSpec n1 p1 :: rest)])] =
      .generic pkgName pkgName .skippable
        [ .generic "constants" (pkgName ++ ".constants") .generic []
        , .generic "global vars" (pkgName ++ ".global vars") .generic []
        , .generic "types" (pkgName ++ ".types") .generic
            [.generic n1 (pkgName ++ ".types." ++ n1) .name []]
        , .generic "funcs" (pkgName ++ ".funcs") .generic [] ] := by
  constructor <;>
    simp [parsePkg, scanFiles, scanDecl, typeSpecHead, lookupEntry, storeEntry,
      typeNode, leafNode]

/-- C10: for every if-statement with an else branch, the `else` keyword
span is recorded at exactly `Body.End() + 1` with length `len("else")`;
since the true `else` token sits `gap` characters past the body's end,
the recorded span coincides with it exactly when `gap = 1`, i.e. when a
single space separates `}` from `else`. -/
theorem elseKeywordSpanAssumedOffset (st : WalkState) (ifPos : Int) (init : GoStmtOpt)
    (cond : Option GoExpr) (lb : Int) (body : GoStmtList) (rb : Int) (e : GoStmt)
    (gap : Int) :
    (⟨.keyword, blockEnd rb + 1, String.length "else"⟩ : SpanRec) ∈
        (addIfStmt st ifPos init cond lb body rb (.some e)).spans ∧
      (blockEnd rb + 1 = blockEnd rb + gap ↔ gap = 1) := by
  constructor
  · simp only [addIfStmt, addStmt, addGoExpr_eq, addStmtOpt]
    apply mem_addStmt_spans
    simp [addSpanRec]
  · constructor <;> (intro h; omega)
